import Mathlib

/-
Verification of the Magic Markup canvas annotation engine.

Shallow embedding of:
  src/src/components/magic-markup-editor.tsx   (editor state machine, history,
                                                hit testing, flatten-for-generate)
  src/src/components/text-annotator.tsx        (annotation commit/cancel)
  src/src/lib/canvas-utils.ts                  (resizeImage)

Conventions of the embedding:
  * JS `number` is modelled as `ℚ` (coordinates, stroke widths, dimensions).
    `Math.hypot dx dy < r` is modelled as `0 < r ∧ dx^2 + dy^2 < r^2`,
    which is equivalent for real numbers since `hypot` is the nonnegative
    square root of `dx^2 + dy^2`.
  * Object ids come from `Date.now().toString()`; since `Nat.toString` is
    injective, ids are modelled as the `ℕ` timestamp itself.
  * The optional `width`/`height` fields cached on a text object are
    `Option ℚ`; the JS truthiness test `a.width && a.height` is
    "defined and nonzero".
-/

namespace MagicMarkup

/-- A point in image-space pixel coordinates (floating point in the source). -/
structure Point where
  x : ℚ
  y : ℚ
  deriving DecidableEq, Repr

/-- The editor tools.  `types.ts` omits `select` but the editor component uses
it (`setTool('select')`, `tool === 'select'`); the runtime value set is these
four. -/
inductive Tool where
  | select
  | highlight
  | annotate
  | erase
  deriving DecidableEq, Repr

inductive BrushSize where
  | small
  | medium
  | large
  deriving DecidableEq, Repr

/-- BRUSH_SIZES record from the editor component. -/
def brushVal : BrushSize → ℚ
  | .small => 5
  | .medium => 10
  | .large => 20

/-- MAX_DIMENSION constant. -/
def maxDimension : ℚ := 1000

/-- A freehand highlight stroke (interface `Highlight`).  The editor
additionally reads/writes a dynamic `selected` flag on the object. -/
structure Highlight where
  id : ℕ
  color : String
  points : List Point
  strokeWidth : ℚ
  selected : Bool
  deriving DecidableEq, Repr

/-- A text object (interface `Annotation`), with the lazily cached
`width`/`height` measurements and the dynamic `selected` flag. -/
structure Annot where
  id : ℕ
  color : String
  text : String
  position : Point
  fontSize : ℚ
  width : Option ℚ
  height : Option ℚ
  selected : Bool
  deriving DecidableEq, Repr

/-- The tagged union `CanvasObject`, discriminated by the runtime `type`
field ('highlight' / 'annotation'). -/
inductive CanvasObject where
  | stroke (h : Highlight)
  | note (a : Annot)
  deriving DecidableEq, Repr

/-- `obj.id` on either variant. -/
def oid : CanvasObject → ℕ
  | .stroke h => h.id
  | .note a => a.id

/-- `obj.selected` on either variant. -/
def osel : CanvasObject → Bool
  | .stroke h => h.selected
  | .note a => a.selected

/-- JS truthiness of an optional numeric field: `undefined` and `0` are
falsy, any other number is truthy. -/
def truthyQ : Option ℚ → Bool
  | none => false
  | some q => decide (q ≠ 0)

/-- `Math.hypot (px - x) (py - y) < r`, stated over `ℚ` by squaring: the
hypotenuse is nonnegative, so it is `< r` iff `r` is positive and the
squared distance is `< r^2`. -/
def hypotLt (dx dy r : ℚ) : Bool :=
  decide (0 < r ∧ dx ^ 2 + dy ^ 2 < r ^ 2)

/-- Per-object match condition used by `hitTest` in the editor:
  * annotations: `a.width && a.height` truthy and the point inside the
    box `[position.x, position.x + width] × [position.y - height, position.y]`;
  * highlights: some vertex within `strokeWidth / 2 + 5` of the point. -/
def objectHit (x y : ℚ) : CanvasObject → Bool
  | .note a =>
      truthyQ a.width && truthyQ a.height &&
        decide (a.position.x ≤ x ∧ x ≤ a.position.x + a.width.getD 0 ∧
                a.position.y - a.height.getD 0 ≤ y ∧ y ≤ a.position.y)
  | .stroke h =>
      h.points.any fun p => hypotLt (p.x - x) (p.y - y) (h.strokeWidth / 2 + 5)

/-- First object of `l` satisfying `objectHit`; `hitTest` runs this on the
reversed object list (the source iterates `i` from the end down to 0). -/
def hitFirst (x y : ℚ) : List CanvasObject → Option CanvasObject
  | [] => none
  | o :: rest => if objectHit x y o then some o else hitFirst x y rest

/-- `hitTest(x, y)` from the editor: walk the object list backwards
(topmost first) and return the first object that matches; `null` if none. -/
def hitTest (objs : List CanvasObject) (x y : ℚ) : Option CanvasObject :=
  hitFirst x y objs.reverse

/-- The full mutable state of the editor relevant to the canvas engine:
`canvasObjects`, the active tool, color, brush size, the canvas buffer
width, the undo history ref with its pointer, the interaction-state ref
(`isDrawing`, `isDragging`, `dragOffset`, `lastClickTime`) and the
currently edited annotation (`editingAnnotation`). -/
structure EditorState where
  objects : List CanvasObject
  tool : Tool
  color : String
  brushSize : BrushSize
  canvasWidth : ℚ
  hist : List (List CanvasObject)
  ptr : ℕ
  isDrawing : Bool
  isDragging : Bool
  dragOffset : Option Point
  lastClickTime : ℕ
  editing : Option Annot
  deriving DecidableEq, Repr

/-- `saveHistory()`: if the pointer is not at the last entry, splice away
everything after it; then push a deep copy of the scene and advance the
pointer.  The JS guard `pointer < length - 1` is `ptr + 1 < length` over ℕ
(both are false for an empty entry list). -/
def saveHist (s : EditorState) : EditorState :=
  let entries := if s.ptr + 1 < s.hist.length then s.hist.take (s.ptr + 1) else s.hist
  { s with hist := entries ++ [s.objects], ptr := s.ptr + 1 }

/-- `undo()`: move the pointer back one entry and load it, no-op at 0. -/
def undoStep (s : EditorState) : EditorState :=
  if 0 < s.ptr then
    { s with ptr := s.ptr - 1, objects := s.hist.getD (s.ptr - 1) [] }
  else s

/-- `redo()`: move the pointer forward one entry and load it, no-op at the
end (JS guard `pointer < length - 1`). -/
def redoStep (s : EditorState) : EditorState :=
  if s.ptr + 1 < s.hist.length then
    { s with ptr := s.ptr + 1, objects := s.hist.getD (s.ptr + 1) [] }
  else s

/-- `handleClear()`: empty the scene and reseed the history with one empty
entry. -/
def clearStep (s : EditorState) : EditorState :=
  { s with objects := [], hist := [[]], ptr := 0 }

/-- `erase(x, y)`: hit-test once and delete the hit object by id. -/
def eraseAt (s : EditorState) (x y : ℚ) : EditorState :=
  match hitTest s.objects x y with
  | none => s
  | some o => { s with objects := s.objects.filter fun o' => oid o' ≠ oid o }

/-- The mouse-move highlight branch: push the point onto the last object's
point list if that object exists and is a highlight. -/
def extendLast : List CanvasObject → Point → List CanvasObject
  | [], _ => []
  | [CanvasObject.stroke h], p => [.stroke { h with points := h.points ++ [p] }]
  | [o], _ => [o]
  | o :: rest, p => o :: extendLast rest p

/-- `{ ...obj, selected: b }` on either variant. -/
def setSel (o : CanvasObject) (b : Bool) : CanvasObject :=
  match o with
  | .stroke h => .stroke { h with selected := b }
  | .note a => .note { a with selected := b }

/-- `handleCanvasMouseDown`.  `t` is `Date.now()` in milliseconds; `x, y`
are the already-mapped image-space coordinates. -/
def mouseDown (s : EditorState) (t : ℕ) (x y : ℚ) : EditorState :=
  match s.tool with
  | .annotate =>
      let a : Annot :=
        { id := t, color := s.color, text := "", position := ⟨x, y⟩,
          fontSize := brushVal s.brushSize * 4 *
            ((if s.canvasWidth = 0 then maxDimension else s.canvasWidth) / maxDimension),
          width := none, height := none, selected := false }
      { s with editing := some a }
  | .select =>
      let doubleClick := t - s.lastClickTime < 300
      let s := { s with lastClickTime := t }
      let hit := hitTest s.objects x y
      match hit with
      | some (CanvasObject.note a) =>
          if doubleClick then
            { s with editing := some a,
                     objects := s.objects.map fun o =>
                       if oid o = a.id then o else setSel o false }
          else
            { s with objects := s.objects.map fun o => setSel o (oid o = a.id),
                     isDragging := true,
                     dragOffset := some ⟨x - a.position.x, y - a.position.y⟩ }
      | some (CanvasObject.stroke h) =>
          { s with objects := s.objects.map fun o => setSel o (oid o = h.id) }
      | none =>
          { s with objects := s.objects.map fun o => setSel o false }
  | .highlight =>
      let s := { s with isDrawing := true, isDragging := false,
                        dragOffset := none, lastClickTime := 0 }
      let h : Highlight :=
        { id := t, color := s.color, points := [⟨x, y⟩],
          strokeWidth := brushVal s.brushSize * (s.canvasWidth / maxDimension),
          selected := false }
      { s with objects := s.objects ++ [CanvasObject.stroke h] }
  | .erase =>
      let s := { s with isDrawing := true, isDragging := false,
                        dragOffset := none, lastClickTime := 0 }
      eraseAt s x y

/-- The body of the drag-update map: a selected text object follows the
pointer minus the recorded offset; everything else is untouched. -/
def dragTo (x y : ℚ) (off : Point) (o : CanvasObject) : CanvasObject :=
  match o with
  | .note a =>
      if a.selected then .note { a with position := ⟨x - off.x, y - off.y⟩ }
      else .note a
  | .stroke h => .stroke h

/-- `handleCanvasMouseMove`: no-op unless a gesture is in progress; drag
moves every selected annotation by the recorded offset; highlight extends
the last stroke; erase repeats a single hit-test-and-remove. -/
def mouseMove (s : EditorState) (x y : ℚ) : EditorState :=
  if ¬s.isDrawing ∧ ¬s.isDragging then s
  else if s.isDragging ∧ s.tool = .select then
    match s.dragOffset with
    | none => s
    | some off => { s with objects := s.objects.map (dragTo x y off) }
  else if s.tool = .highlight ∧ s.isDrawing then
    { s with objects := extendLast s.objects ⟨x, y⟩ }
  else if s.tool = .erase ∧ s.isDrawing then
    eraseAt s x y
  else s

/-- `handleCanvasMouseUp` (also fired on mouse-leave): commit a history
snapshot if a gesture was in progress, then clear the gesture flags. -/
def mouseUp (s : EditorState) : EditorState :=
  let s1 := if s.isDrawing ∨ s.isDragging then saveHist s else s
  { s1 with isDrawing := false, isDragging := false }

/-- Switching the active tool via a toolbar button: `setTool(t)` and
nothing else. -/
def setToolStep (s : EditorState) (t : Tool) : EditorState :=
  { s with tool := t }

/-- The body of the update map of `handleSaveAnnotation`: the text object
with the saved id gets the new text and position and its cached
measurements reset; everything else is untouched. -/
def updNote (text : String) (id : ℕ) (pos : Point) (o : CanvasObject) :
    CanvasObject :=
  match o with
  | .note a =>
      if a.id = id then
        .note { a with text := text, position := pos, width := none, height := none }
      else .note a
  | .stroke h => .stroke h

/-- The scene update of `handleSaveAnnotation` for non-empty text: update
in place when the id exists, otherwise append a fresh text object built
from the current color/brush settings. -/
def upsertScene (s : EditorState) (text : String) (id : ℕ) (pos : Point) :
    EditorState :=
  if s.objects.any fun o => oid o = id then
    { s with objects := s.objects.map (updNote text id pos) }
  else
    let a : Annot :=
      { id := id, color := s.color, text := text, position := pos,
        fontSize := brushVal s.brushSize * 4 *
          ((if s.canvasWidth = 0 then maxDimension else s.canvasWidth) / maxDimension),
        width := none, height := none, selected := false }
    { s with objects := s.objects ++ [CanvasObject.note a] }

/-- `handleSaveAnnotation(text, id, newPosition)` in the editor: for
non-empty text, update the object with that id if it exists (resetting the
cached measurements), otherwise append a fresh annotation, then commit a
history snapshot; finally close the overlay editor.  Updating an id that
belongs to a highlight leaves it a highlight (the JS spread keeps
`type: 'highlight'`, and the extra fields are never read). -/
def editorSaveAnnot (s : EditorState) (text : String) (id : ℕ) (pos : Point) :
    EditorState :=
  let s1 := if text ≠ "" then saveHist (upsertScene s text id pos) else s
  { s1 with editing := none }

/-- The characters removed by JS `String.prototype.trim`: the ECMAScript
WhiteSpace and LineTerminator sets. -/
def jsWhitespace (c : Char) : Bool :=
  c = '\t' ∨ c = '\n' ∨ c = '\u000B' ∨ c = '\u000C' ∨ c = '\r' ∨ c = ' ' ∨
  c = '\u00A0' ∨ c = '\u1680' ∨
  ('\u2000' ≤ c ∧ c ≤ '\u200A') ∨
  c = '\u2028' ∨ c = '\u2029' ∨ c = '\u202F' ∨ c = '\u205F' ∨
  c = '\u3000' ∨ c = '\uFEFF'

/-- JS `text.trim()`: strip leading and trailing whitespace. -/
def jsTrim (s : String) : String :=
  String.mk ((((s.data.dropWhile jsWhitespace).reverse).dropWhile jsWhitespace).reverse)

/-- The annotator's save button / Enter key (`TextAnnotator.handleSave`):
trim the text; commit through `handleSaveAnnotation` when non-empty,
otherwise fall through to cancel.  `pos` is the (possibly dragged)
annotator position mapped back to canvas coordinates. -/
def annotSaveStep (s : EditorState) (raw : String) (pos : Point) : EditorState :=
  match s.editing with
  | none => s
  | some a =>
      if jsTrim raw ≠ "" then editorSaveAnnot s (jsTrim raw) a.id pos
      else { s with editing := none }

/-- The annotator's cancel button / Escape key: close the overlay without
touching the scene or the history. -/
def annotCancelStep (s : EditorState) : EditorState :=
  { s with editing := none }

/-- Delete/Backspace handling (`handleKeyDown`): ignored while a text edit
is open; otherwise delete every selected object and commit a snapshot if
there was a selection. -/
def keyDeleteStep (s : EditorState) : EditorState :=
  if s.editing.isSome then s
  else if s.objects.any osel then
    saveHist { s with objects := s.objects.filter fun o => ¬osel o }
  else s

/-- The pointer / keyboard / toolbar events the engine reacts to. -/
inductive Event where
  | down (t : ℕ) (x y : ℚ)
  | move (x y : ℚ)
  | up
  | pickTool (t : Tool)
  | undoE
  | redoE
  | clearE
  | keyDelete
  | annotSave (raw : String) (pos : Point)
  | annotCancel

/-- Dispatch one event. -/
def stepEvent (s : EditorState) : Event → EditorState
  | .down t x y => mouseDown s t x y
  | .move x y => mouseMove s x y
  | .up => mouseUp s
  | .pickTool t => setToolStep s t
  | .undoE => undoStep s
  | .redoE => redoStep s
  | .clearE => clearStep s
  | .keyDelete => keyDeleteStep s
  | .annotSave raw pos => annotSaveStep s raw pos
  | .annotCancel => annotCancelStep s

/-- Run a sequence of events. -/
def run (s : EditorState) : List Event → EditorState
  | [] => s
  | e :: es => run (stepEvent s e) es

/-- The engine state right after a base image of buffer width 1000 is
loaded into a fresh editor: empty scene, history seeded with one empty
entry, default tool `highlight`, first editor color, medium brush. -/
def initState : EditorState :=
  { objects := [], tool := .highlight, color := "#D35898", brushSize := .medium,
    canvasWidth := 1000, hist := [[]], ptr := 0, isDrawing := false,
    isDragging := false, dragOffset := none, lastClickTime := 0, editing := none }

/-- The canvas element's backing-buffer dimensions (`canvas.width/height`). -/
structure CanvasDim where
  width : ℚ
  height : ℚ
  deriving DecidableEq, Repr

/-- A `DOMRect` as returned by `getBoundingClientRect()`. -/
structure DomRect where
  left : ℚ
  top : ℚ
  width : ℚ
  height : ℚ
  deriving DecidableEq, Repr

/-- `getCanvasCoordinates(e)` from the editor.  The source guards only the
null canvas ref (`if (!canvas) return \x7bx: 0, y: 0\x7d`) and then computes
`(clientX - rect.left) * (canvas.width / rect.width)` (same for y).  When
`rect.width` (resp. `rect.height`) is `0`, the JS division produces
`Infinity`/`NaN` and the product stays non-finite (`q * ±Infinity` is
`±Infinity` or `NaN`, `q * NaN` is `NaN`), so no finite point results; that
outcome is modelled as `none`, while `some p` is a finite result. -/
def getCanvasCoordinates (canvas : Option CanvasDim) (rect : DomRect)
    (clientX clientY : ℚ) : Option Point :=
  match canvas with
  | none => some ⟨0, 0⟩
  | some c =>
      if rect.width = 0 ∨ rect.height = 0 then none
      else some ⟨(clientX - rect.left) * (c.width / rect.width),
                 (clientY - rect.top) * (c.height / rect.height)⟩

/-- `resizeImage` from `canvas-utils.ts`: cap the width at `maxW`
(rescaling the height through the original aspect ratio), then cap the
resulting height at `maxH` (rescaling the width).  `ratio` is computed
once, from the original dimensions. -/
def resizeImage (w h maxW maxH : ℚ) : ℚ × ℚ :=
  let ratio := w / h
  let w1 := if maxW < w then maxW else w
  let h1 := if maxW < w then maxW / ratio else h
  let w2 := if maxH < h1 then maxH * ratio else w1
  let h2 := if maxH < h1 then maxH else h1
  (w2, h2)

/-- One 2D-context drawing command issued while building the annotated
image in `handleGenerate`. -/
inductive DrawOp where
  | base (w h : ℚ)
  | path (color : String) (strokeWidth : ℚ) (points : List Point) (alpha : ℚ)
  | glyphs (color : String) (fontSize : ℚ) (position : Point) (text : String) (alpha : ℚ)
  deriving DecidableEq, Repr

/-- The flattened annotated image: its raster dimensions and the ordered
drawing commands that produced it. -/
structure FlatImage where
  width : ℚ
  height : ℚ
  ops : List DrawOp
  deriving DecidableEq, Repr

/-- The stroke pass of `handleGenerate`: `ctx.globalAlpha = 0.5` then the
polyline stroke. -/
def strokeOp (alpha : ℚ) (h : Highlight) : DrawOp :=
  .path h.color h.strokeWidth h.points alpha

/-- The text pass of `handleGenerate`: `ctx.globalAlpha = 1.0` then
outlined, filled glyphs. -/
def glyphOp (alpha : ℚ) (a : Annot) : DrawOp :=
  .glyphs a.color a.fontSize a.position a.text alpha

/-- `o` as a highlight, if it is one (`canvasObjects.filter(o => o.type
=== 'highlight')`). -/
def asStroke : CanvasObject → Option Highlight
  | .stroke h => some h
  | .note _ => none

/-- `o` as a text object, if it is one. -/
def asNote : CanvasObject → Option Annot
  | .note a => some a
  | .stroke _ => none

/-- The flatten performed by `handleGenerate` before calling the
generation service: size the canvas to the base image, draw the base
image, then loop over the highlights at `globalAlpha = 0.5`, then loop
over the annotations at `globalAlpha = 1.0`. -/
def flatten (baseW baseH : ℚ) (objs : List CanvasObject) : FlatImage :=
  let highlights := objs.filterMap asStroke
  let notes := objs.filterMap asNote
  let ops0 := [DrawOp.base baseW baseH]
  let ops1 := highlights.foldl (fun acc h => acc ++ [strokeOp (1/2) h]) ops0
  let ops2 := notes.foldl (fun acc a => acc ++ [glyphOp 1 a]) ops1
  { width := baseW, height := baseH, ops := ops2 }

/-- Modelled from the spec's words for comparison (claim C2): the flatten
the spec describes — base image first, then the scene objects in document
(z-) order, strokes and text both at full opacity. -/
def claimedFlatten (baseW baseH : ℚ) (objs : List CanvasObject) : FlatImage :=
  { width := baseW, height := baseH,
    ops := DrawOp.base baseW baseH :: objs.map fun o =>
      match o with
      | .stroke h => strokeOp 1 h
      | .note a => glyphOp 1 a }

/-- The state of the generation trigger: the `isLoading` busy flag, the
number of outstanding `generateImageEdit` calls, and whether the
preconditions checked by `handleGenerate` hold (a base image, and at least
one highlight/annotation/non-empty prompt). -/
structure GenState where
  isLoading : Bool
  inFlight : ℕ
  hasBase : Bool
  hasContent : Bool
  deriving DecidableEq, Repr

/-- `handleGenerate()`: bail out (with a toast) when there is no base
image or nothing to generate from; otherwise set the busy flag and issue
the request.  There is no check of `isLoading` here. -/
def handleGenerate (s : GenState) : GenState :=
  if ¬s.hasBase then s
  else if ¬s.hasContent then s
  else { s with isLoading := true, inFlight := s.inFlight + 1 }

/-- The Generate button: `disabled=\x7bisLoading || !baseImage\x7d`, so its
click reaches `handleGenerate` only when not busy. -/
def generateClick (s : GenState) : GenState :=
  if s.isLoading ∨ ¬s.hasBase then s else handleGenerate s

/-- `handlePromptKeyDown`: Cmd/Ctrl+Enter in the prompt textarea calls
`handleGenerate()` directly, with no busy check. -/
def generateKey (s : GenState) : GenState :=
  handleGenerate s

/-- An outstanding request resolving or rejecting: the `finally` block
clears the busy flag. -/
def generateResolve (s : GenState) : GenState :=
  if 0 < s.inFlight then { s with inFlight := s.inFlight - 1, isLoading := false }
  else s

/-- One step of the generation-trigger subsystem. -/
inductive GenStep : GenState → GenState → Prop where
  | click (s : GenState) : GenStep s (generateClick s)
  | key (s : GenState) : GenStep s (generateKey s)
  | resolve (s : GenState) : GenStep s (generateResolve s)

/-- The idle editor with a base image and some content to generate from. -/
def genInit : GenState :=
  { isLoading := false, inFlight := 0, hasBase := true, hasContent := true }

/-- Reachability from `genInit` through trigger/resolve steps. -/
def GenReach (s : GenState) : Prop :=
  Relation.ReflTransGen GenStep genInit s

/-- An editor state whose history pointer sits strictly before the last
entry (i.e. after one undo), used to witness commit-after-undo. -/
def witState : EditorState :=
  { initState with
      objects := [CanvasObject.stroke
        { id := 7, color := "#D35898", points := [⟨1, 1⟩],
          strokeWidth := 10, selected := false }],
      hist := [[], [CanvasObject.stroke
        { id := 6, color := "#D35898", points := [⟨0, 0⟩],
          strokeWidth := 10, selected := false }]],
      ptr := 0 }

/-- C1: starting from an empty scene and a history of one empty entry, the
gesture pointer-down at (10,10), move to (20,15), move to (30,10),
pointer-up leaves exactly one stroke with points
[(10,10),(20,15),(30,10)], a history of 2 entries, and one `undo()`
restores the empty scene. -/
theorem highlight_gesture_scenario :
    (run initState [.down 1 10 10, .move 20 15, .move 30 10, .up]).objects =
      [CanvasObject.stroke
        { id := 1, color := "#D35898",
          points := [⟨10, 10⟩, ⟨20, 15⟩, ⟨30, 10⟩],
          strokeWidth := 10, selected := false }] ∧
    (run initState [.down 1 10 10, .move 20 15, .move 30 10, .up]).hist.length = 2 ∧
    (undoStep (run initState [.down 1 10 10, .move 20 15, .move 30 10, .up])).objects =
      [] := by
  norm_num [run, stepEvent, mouseDown, mouseMove, mouseUp, saveHist, undoStep,
    extendLast, initState, brushVal, maxDimension]

/-- C4: when the history pointer is not at the last entry, a commit
truncates everything after the pointer, appends the scene and advances the
pointer; and after any commit, `redo()` is a no-op. -/
theorem commit_truncates_and_redo_noop (s : EditorState) :
    (s.ptr + 1 < s.hist.length →
      (saveHist s).hist = s.hist.take (s.ptr + 1) ++ [s.objects] ∧
      (saveHist s).ptr = s.ptr + 1) ∧
    redoStep (saveHist s) = saveHist s := by
  constructor
  · intro h
    simp [saveHist, h]
  · have hcond : ¬((saveHist s).ptr + 1 < (saveHist s).hist.length) := by
      unfold saveHist
      by_cases h : s.ptr + 1 < s.hist.length
      · simp only [h, if_true, List.length_append, List.length_take,
          List.length_singleton]
        omega
      · simp only [h, if_false, List.length_append, List.length_singleton]
        omega
    unfold redoStep
    rw [if_neg hcond]

/-- Witness for the hypothesis of `commit_truncates_and_redo_noop`, at a
state whose pointer sits strictly before the last history entry. -/
theorem commit_truncates_witness :
    (witState.ptr + 1 < witState.hist.length) ∧
    ((witState.ptr + 1 < witState.hist.length →
        (saveHist witState).hist = witState.hist.take (witState.ptr + 1) ++ [witState.objects] ∧
        (saveHist witState).ptr = witState.ptr + 1) ∧
      redoStep (saveHist witState) = saveHist witState) :=
  ⟨by decide, commit_truncates_and_redo_noop witState⟩

/-- An editor state in the middle of a text edit, used to witness the
empty-commit-is-cancel behaviour. -/
def editState : EditorState :=
  { initState with
      editing := some
        { id := 11, color := "#D35898", text := "", position := ⟨3, 4⟩,
          fontSize := 40, width := none, height := none, selected := false } }

/-- C5 fails on the code: with a live canvas whose bounding rect has zero
width and height, `getCanvasCoordinates` divides by zero and yields a
non-finite result (modelled `none`), not the point (0,0); the (0,0)
fallback fires only for a null canvas ref. -/
theorem zero_rect_not_origin :
    getCanvasCoordinates (some ⟨300, 150⟩) ⟨0, 0, 0, 0⟩ 10 10 ≠
      some (⟨0, 0⟩ : Point) := by
  decide

/-- C5 amended: the (0,0) fallback applies exactly when the canvas ref is
null; with a canvas present and a zero-width or zero-height rendered rect,
the division by zero makes the mapped coordinates non-finite. -/
theorem zero_rect_divides (rect : DomRect) (clientX clientY : ℚ) :
    getCanvasCoordinates none rect clientX clientY = some (⟨0, 0⟩ : Point) ∧
    ∀ c : CanvasDim, rect.width = 0 ∨ rect.height = 0 →
      getCanvasCoordinates (some c) rect clientX clientY = none := by
  refine ⟨rfl, fun c h => ?_⟩
  simp only [getCanvasCoordinates, if_pos h]

/-- Witness for `zero_rect_divides` at a rect with zero rendered width. -/
theorem zero_rect_divides_witness :
    ((⟨0, 0, 0, 5⟩ : DomRect).width = 0 ∨ (⟨0, 0, 0, 5⟩ : DomRect).height = 0) ∧
    getCanvasCoordinates (some ⟨300, 150⟩) ⟨0, 0, 0, 5⟩ 1 2 = none :=
  ⟨Or.inl rfl, (zero_rect_divides ⟨0, 0, 0, 5⟩ 1 2).2 ⟨300, 150⟩ (Or.inl rfl)⟩

/-- C6 fails on the code: select a stroke under the select tool, then
switch the tool to highlight — the stroke stays selected while the active
tool is not `select`, so the claimed invariant does not hold in this
reachable state. -/
theorem selection_survives_tool_change :
    (run initState [.down 1 10 10, .up, .pickTool .select, .down 400 10 10,
        .up, .pickTool .highlight]).tool ≠ Tool.select ∧
    (run initState [.down 1 10 10, .up, .pickTool .select, .down 400 10 10,
        .up, .pickTool .highlight]).objects.map osel = [true] := by
  constructor
  · norm_num [run, stepEvent, mouseDown, mouseMove, mouseUp, saveHist,
      setToolStep, initState, brushVal, maxDimension, hitTest, hitFirst,
      objectHit, hypotLt, eraseAt, setSel]
    decide
  · norm_num [run, stepEvent, mouseDown, mouseMove, mouseUp, saveHist,
      setToolStep, initState, brushVal, maxDimension, hitTest, hitFirst,
      objectHit, hypotLt, eraseAt, setSel, osel, oid]

/-- C6 amended: switching the active tool only changes `tool`; it never
touches the scene, so selection flags survive a change away from the
select tool. -/
theorem tool_change_keeps_scene (s : EditorState) (t : Tool) :
    (setToolStep s t).tool = t ∧ (setToolStep s t).objects = s.objects :=
  ⟨rfl, rfl⟩

/-- C8 fails on the code: from the idle editor, clicking Generate starts a
request (busy flag on, one request outstanding); the Cmd/Ctrl+Enter
shortcut then calls `handleGenerate` with no busy check, putting a second
request in flight while the first is still outstanding — and this state is
reachable. -/
theorem concurrent_generate_requests :
    GenReach (generateClick genInit) ∧
    (generateClick genInit).isLoading = true ∧
    (generateClick genInit).inFlight = 1 ∧
    (generateKey (generateClick genInit)).inFlight = 2 :=
  ⟨Relation.ReflTransGen.single (GenStep.click genInit), rfl, rfl, rfl⟩

/-- C8 amended: the Generate button alone never issues a second request
while busy (it is disabled when `isLoading`), but the keyboard shortcut is
not guarded, and a reachable state carries two outstanding requests. -/
theorem generate_button_guarded_key_unguarded :
    (∀ s : GenState, s.isLoading = true → generateClick s = s) ∧
    GenReach (generateKey (generateClick genInit)) ∧
    (generateKey (generateClick genInit)).inFlight = 2 := by
  refine ⟨fun s h => ?_, ?_, rfl⟩
  · unfold generateClick
    rw [h]
    simp
  · exact Relation.ReflTransGen.head (GenStep.click genInit)
      (Relation.ReflTransGen.single (GenStep.key (generateClick genInit)))

/-- Witness for the hypothesis of
`generate_button_guarded_key_unguarded`: the busy state reached by one
click swallows a second button click. -/
theorem generate_button_guarded_witness :
    (generateClick genInit).isLoading = true ∧
    generateClick (generateClick genInit) = generateClick genInit :=
  ⟨rfl, generate_button_guarded_key_unguarded.1 (generateClick genInit) rfl⟩

/-- C9: committing the annotator with text that trims to empty is exactly
a cancel — the overlay closes and the scene, the history entries and the
history pointer are untouched, whatever the scene and the edited id. -/
theorem empty_text_commit_is_cancel (s : EditorState) (raw : String) (pos : Point)
    (h : jsTrim raw = "") :
    annotSaveStep s raw pos = annotCancelStep s ∧
    (annotCancelStep s).objects = s.objects ∧
    (annotCancelStep s).hist = s.hist ∧
    (annotCancelStep s).ptr = s.ptr := by
  refine ⟨?_, rfl, rfl, rfl⟩
  unfold annotSaveStep annotCancelStep
  cases he : s.editing with
  | none => cases s; simp_all
  | some a => simp [h]

/-- Witness for `empty_text_commit_is_cancel` on whitespace-only input. -/
theorem empty_text_commit_witness :
    jsTrim " \t " = "" ∧
    (annotSaveStep editState " \t " ⟨3, 4⟩ = annotCancelStep editState ∧
      (annotCancelStep editState).objects = editState.objects ∧
      (annotCancelStep editState).hist = editState.hist ∧
      (annotCancelStep editState).ptr = editState.ptr) :=
  ⟨by decide, empty_text_commit_is_cancel editState " \t " ⟨3, 4⟩ (by decide)⟩

/-- A text object below a stroke in z-order, for the flatten comparison. -/
def flatNote : Annot :=
  { id := 2, color := "#3B82F6", text := "hi", position := ⟨5, 6⟩,
    fontSize := 40, width := none, height := none, selected := false }

/-- The stroke above `flatNote` in z-order. -/
def flatStroke : Highlight :=
  { id := 3, color := "#D35898", points := [⟨1, 1⟩, ⟨2, 2⟩],
    strokeWidth := 10, selected := false }

/-- C2 fails on the code: on a scene whose document order is a text object
below a stroke, `handleGenerate` flattens all strokes first (at 50%
opacity, the same alpha as the live look) and all text afterwards, which
is neither document order nor full-opacity strokes. -/
theorem flatten_not_as_claimed :
    flatten 100 80 [.note flatNote, .stroke flatStroke] ≠
      claimedFlatten 100 80 [.note flatNote, .stroke flatStroke] := by
  decide

/-- Folding `acc ++ [f x]` over a list appends the mapped list. -/
theorem foldl_snoc_map {α : Type} (f : α → DrawOp) :
    ∀ (l : List α) (init : List DrawOp),
      l.foldl (fun acc x => acc ++ [f x]) init = init ++ l.map f := by
  intro l
  induction l with
  | nil => intro init; simp
  | cons a l ih => intro init; simp [ih]

/-- C2 amended: the flattened annotated image has the base image's
dimensions and draws the base image first; but the object pass is all
strokes (in scene order, at 50% opacity — the same alpha as the live
canvas) followed by all text objects (in scene order, at full opacity),
not a single document-order pass with full-opacity strokes. -/
theorem flatten_shape (baseW baseH : ℚ) (objs : List CanvasObject) :
    (flatten baseW baseH objs).width = baseW ∧
    (flatten baseW baseH objs).height = baseH ∧
    (flatten baseW baseH objs).ops =
      DrawOp.base baseW baseH ::
        ((objs.filterMap asStroke).map (strokeOp (1/2)) ++
          (objs.filterMap asNote).map (glyphOp 1)) := by
  refine ⟨rfl, rfl, ?_⟩
  show (flatten baseW baseH objs).ops = _
  unfold flatten
  simp only []
  rw [foldl_snoc_map, foldl_snoc_map]
  simp

/-- Modelled from the claim's words (C3): a text object matches when its
width and height "are cached" (defined, regardless of value) and the point
lies in the box `[position.x, position.x + width] ×
[position.y - height, position.y]`. -/
def claimNoteHit (x y : ℚ) (a : Annot) : Prop :=
  a.width.isSome ∧ a.height.isSome ∧
  a.position.x ≤ x ∧ x ≤ a.position.x + a.width.getD 0 ∧
  a.position.y - a.height.getD 0 ≤ y ∧ y ≤ a.position.y

/-- A text object whose measured width was cached as `0` (JS: measuring a
zero-width glyph such as U+200B stores `width = 0`). -/
def zeroWidthNote : Annot :=
  { id := 9, color := "#22C55E", text := "x", position := ⟨50, 50⟩,
    fontSize := 40, width := some 0, height := some 20, selected := false }

/-- C3 fails on the code for a cached width of `0`: the claim's condition
(measurements cached, point in the box) holds at the anchor point, yet
`hitTest` returns `null`, because the source's guard `a.width && a.height`
uses JS truthiness and a cached `0` is falsy. -/
theorem cached_zero_width_not_hit :
    claimNoteHit 50 50 zeroWidthNote ∧
    hitTest [.note zeroWidthNote] 50 50 = none := by
  constructor
  · refine ⟨rfl, rfl, le_refl _, ?_, ?_, le_refl _⟩ <;> norm_num [zeroWidthNote]
  · decide

/-- Stroke match in the claim's terms: the point lies strictly within
`strokeWidth / 2 + 5` of at least one individual vertex (distance stated
by squaring, as the radius must be positive for any point to be within
it). -/
def strokeHitP (x y : ℚ) (h : Highlight) : Prop :=
  ∃ p ∈ h.points,
    0 < h.strokeWidth / 2 + 5 ∧
    (p.x - x) ^ 2 + (p.y - y) ^ 2 < (h.strokeWidth / 2 + 5) ^ 2

/-- Text-object match in the claim's terms, amended for the source's
truthiness guard: width and height cached with nonzero values, and the
point inside the anchored box. -/
def noteHitP (x y : ℚ) (a : Annot) : Prop :=
  ∃ w hg, a.width = some w ∧ a.height = some hg ∧ w ≠ 0 ∧ hg ≠ 0 ∧
    a.position.x ≤ x ∧ x ≤ a.position.x + w ∧
    a.position.y - hg ≤ y ∧ y ≤ a.position.y

/-- Per-object match in the claim's terms. -/
def hitP (x y : ℚ) : CanvasObject → Prop
  | .stroke h => strokeHitP x y h
  | .note a => noteHitP x y a

/-- The source's Boolean match agrees with the claim-level predicate. -/
theorem objectHit_iff (x y : ℚ) (o : CanvasObject) :
    objectHit x y o = true ↔ hitP x y o := by
  cases o with
  | stroke h =>
      simp only [objectHit, hitP, strokeHitP, List.any_eq_true, hypotLt,
        decide_eq_true_eq]
  | note a =>
      cases hw : a.width with
      | none => simp [objectHit, hitP, noteHitP, truthyQ, hw]
      | some w =>
          cases hh : a.height with
          | none => simp [objectHit, hitP, noteHitP, truthyQ, hw, hh]
          | some hg =>
              simp only [objectHit, hitP, noteHitP, truthyQ, hw, hh,
                Option.getD_some, Bool.and_eq_true, decide_eq_true_eq,
                Option.some.injEq]
              constructor
              · rintro ⟨⟨hw0, hh0⟩, hbox⟩
                exact ⟨w, hg, rfl, rfl, hw0, hh0, hbox.1, hbox.2.1, hbox.2.2.1,
                  hbox.2.2.2⟩
              · rintro ⟨w', hg', hw', hh', hw0, hh0, h1, h2, h3, h4⟩
                cases hw'
                cases hh'
                exact ⟨⟨hw0, hh0⟩, h1, h2, h3, h4⟩

/-- `hitFirst` returns `none` exactly when nothing matches. -/
theorem hitFirst_eq_none_iff (x y : ℚ) (l : List CanvasObject) :
    hitFirst x y l = none ↔ ∀ o ∈ l, objectHit x y o = false := by
  induction l with
  | nil => simp [hitFirst]
  | cons o rest ih =>
      by_cases h : objectHit x y o
      · simp [hitFirst, h]
      · rw [hitFirst, if_neg h, ih]
        constructor
        · intro hall o' ho'
          rcases List.mem_cons.mp ho' with h' | h'
          · cases h'
            exact Bool.not_eq_true _ ▸ (by simpa using h)
          · exact hall o' h'
        · intro hall o' ho'
          exact hall o' (List.mem_cons_of_mem _ ho')

/-- When `hitFirst` finds an object, it is the first match: everything
before it in the scan order fails the match. -/
theorem hitFirst_eq_some_split (x y : ℚ) :
    ∀ (l : List CanvasObject) (o : CanvasObject), hitFirst x y l = some o →
      objectHit x y o = true ∧
      ∃ l₁ l₂, l = l₁ ++ o :: l₂ ∧ ∀ o' ∈ l₁, objectHit x y o' = false := by
  intro l
  induction l with
  | nil => intro o h; exact absurd h (by simp [hitFirst])
  | cons a rest ih =>
      intro o h
      by_cases ha : objectHit x y a
      · rw [hitFirst, if_pos ha] at h
        cases h
        exact ⟨ha, [], rest, rfl, by simp⟩
      · rw [hitFirst, if_neg ha] at h
        obtain ⟨hmatch, l₁, l₂, hsplit, hfail⟩ := ih o h
        refine ⟨hmatch, a :: l₁, l₂, by simp [hsplit], ?_⟩
        intro o' ho'
        rcases List.mem_cons.mp ho' with h' | h'
        · cases h'
          exact Bool.not_eq_true _ ▸ (by simpa using ha)
        · exact hfail o' h'

/-- C3 amended: `hitTest` scans the scene in reverse z-order and returns
the topmost object matching the per-object condition — strokes by
per-vertex proximity within `strokeWidth/2 + 5`, text objects by the
cached box provided both cached measurements are nonzero (JS truthiness);
it returns `null` exactly when no object matches. -/
theorem hitTest_characterisation (objs : List CanvasObject) (x y : ℚ) :
    (hitTest objs x y = none ↔ ∀ o ∈ objs, ¬hitP x y o) ∧
    ∀ o, hitTest objs x y = some o →
      hitP x y o ∧
      ∃ pre post, objs = pre ++ o :: post ∧ ∀ o' ∈ post, ¬hitP x y o' := by
  constructor
  · rw [hitTest, hitFirst_eq_none_iff]
    constructor
    · intro hnone o ho
      rw [← objectHit_iff]
      simp [hnone o (List.mem_reverse.mpr ho)]
    · intro hnone o ho
      have := hnone o (List.mem_reverse.mp ho)
      rw [← objectHit_iff] at this
      simp [this]
  · intro o h
    rw [hitTest] at h
    obtain ⟨hmatch, l₁, l₂, hsplit, hfail⟩ := hitFirst_eq_some_split x y _ o h
    refine ⟨(objectHit_iff x y o).mp hmatch, l₂.reverse, l₁.reverse, ?_, ?_⟩
    · have : objs.reverse.reverse = (l₁ ++ o :: l₂).reverse := by rw [hsplit]
      simpa using this
    · intro o' ho'
      have := hfail o' (List.mem_reverse.mp ho')
      rw [← objectHit_iff]
      simp [this]

/-- A stroke with a vertex exactly under the probe point (10,10). -/
def witHit : Highlight :=
  { id := 4, color := "#EAB308", points := [⟨10, 10⟩],
    strokeWidth := 10, selected := false }

/-- Witness for the some-branch of `hitTest_characterisation`: a stroke
under the probe point is hit, matches, and is topmost. -/
theorem hitTest_characterisation_witness :
    hitP 10 10 (CanvasObject.stroke witHit) ∧
    ∃ pre post, [CanvasObject.stroke witHit] = pre ++ CanvasObject.stroke witHit :: post ∧
      ∀ o' ∈ post, ¬hitP 10 10 o' :=
  (hitTest_characterisation [CanvasObject.stroke witHit] 10 10).2
    (CanvasObject.stroke witHit)
    (by norm_num [hitTest, hitFirst, objectHit, hypotLt, witHit])

/-- C7 fails on the code: ids are `Date.now().toString()` with no
collision guard, so two highlight gestures starting in the same
millisecond create two scene objects carrying the same id. -/
theorem duplicate_ids_same_millisecond :
    (run initState [.down 5 0 0, .up, .down 5 50 50, .up]).objects.map oid =
      [5, 5] ∧
    ¬((run initState [.down 5 0 0, .up, .down 5 50 50, .up]).objects.map oid).Nodup := by
  have h : (run initState [.down 5 0 0, .up, .down 5 50 50, .up]).objects.map oid =
      [5, 5] := by
    norm_num [run, stepEvent, mouseDown, mouseMove, mouseUp, saveHist,
      initState, brushVal, maxDimension, oid]
  refine ⟨h, ?_⟩
  rw [h]
  decide

/-- C10: `resizeImage` at the 1000×1000 cap keeps both output dimensions
at most 1000, scales width and height by one common positive factor
(preserving the aspect ratio), and leaves an image already within
1000×1000 untouched. -/
theorem resize_bounds_and_ratio (w h : ℚ) (hw : 0 < w) (hh : 0 < h) :
    (resizeImage w h 1000 1000).1 ≤ 1000 ∧
    (resizeImage w h 1000 1000).2 ≤ 1000 ∧
    (∃ c : ℚ, 0 < c ∧ (resizeImage w h 1000 1000).1 = c * w ∧
      (resizeImage w h 1000 1000).2 = c * h) ∧
    (w ≤ 1000 → h ≤ 1000 → resizeImage w h 1000 1000 = (w, h)) := by
  have hw0 : w ≠ 0 := ne_of_gt hw
  have hh0 : h ≠ 0 := ne_of_gt hh
  have hdiv : (1000 : ℚ) / (w / h) = 1000 * h / w := by
    rw [div_div_eq_mul_div]
  unfold resizeImage
  simp only []
  split_ifs with c1 c2 c2'
  · -- 1000 < w and the rescaled height still exceeds 1000
    rw [hdiv] at c2
    have hwh : w < h := by
      rw [lt_div_iff₀ hw] at c2
      nlinarith
    refine ⟨?_, le_refl _, ⟨1000 / h, by positivity, ?_, ?_⟩, ?_⟩
    · rw [mul_comm, div_mul_eq_mul_div, div_le_iff₀ hh]
      nlinarith
    · field_simp
    · field_simp
    · intro hww _
      exact absurd c1 (not_lt.mpr hww)
  · -- 1000 < w, rescaled height fits
    rw [hdiv] at c2 ⊢
    refine ⟨le_refl _, not_lt.mp c2, ⟨1000 / w, by positivity, ?_, ?_⟩, ?_⟩
    · field_simp
    · field_simp
    · intro hww _
      exact absurd c1 (not_lt.mpr hww)
  · -- w fits, 1000 < h
    have hwh : w < h := lt_of_le_of_lt (not_lt.mp c1) c2'
    refine ⟨?_, le_refl _, ⟨1000 / h, by positivity, ?_, ?_⟩, ?_⟩
    · rw [mul_comm, div_mul_eq_mul_div, div_le_iff₀ hh]
      nlinarith
    · field_simp
    · field_simp
    · intro _ hhh
      exact absurd c2' (not_lt.mpr hhh)
  · -- already within bounds
    exact ⟨not_lt.mp c1, not_lt.mp c2', ⟨1, one_pos, (one_mul w).symm,
      (one_mul h).symm⟩, fun _ _ => rfl⟩

/-- Witness for `resize_bounds_and_ratio` at a 2000×500 image, which
shrinks to 1000×250. -/
theorem resize_bounds_witness :
    (0 : ℚ) < 2000 ∧ (0 : ℚ) < 500 ∧
    ((resizeImage 2000 500 1000 1000).1 ≤ 1000 ∧
      (resizeImage 2000 500 1000 1000).2 ≤ 1000 ∧
      (∃ c : ℚ, 0 < c ∧ (resizeImage 2000 500 1000 1000).1 = c * 2000 ∧
        (resizeImage 2000 500 1000 1000).2 = c * 500) ∧
      ((2000 : ℚ) ≤ 1000 → (500 : ℚ) ≤ 1000 →
        resizeImage 2000 500 1000 1000 = (2000, 500))) :=
  ⟨by norm_num, by norm_num,
    resize_bounds_and_ratio 2000 500 (by norm_num) (by norm_num)⟩

/-- The ids of a scene, in z-order. -/
def oids (l : List CanvasObject) : List ℕ := l.map oid

/-- Timestamps consumed by an event (pointer-down reads `Date.now()`). -/
def eventTimes : Event → List ℕ
  | .down t _ _ => [t]
  | _ => []

/-- All timestamps consumed by an event sequence, in order. -/
def allTimes : List Event → List ℕ
  | [] => []
  | e :: es => eventTimes e ++ allTimes es

/-- The id bookkeeping invariant: every id in the scene, in every history
entry and on the in-progress annotation is one of the consumed timestamps
`T`, and ids are pairwise distinct within the scene and within each
history entry. -/
structure IdInv (T : List ℕ) (s : EditorState) : Prop where
  scene_sub : ∀ i ∈ oids s.objects, i ∈ T
  scene_nodup : (oids s.objects).Nodup
  hist_sub : ∀ e ∈ s.hist, ∀ i ∈ oids e, i ∈ T
  hist_nodup : ∀ e ∈ s.hist, (oids e).Nodup
  edit_mem : ∀ a, s.editing = some a → a.id ∈ T

theorem oid_setSel (o : CanvasObject) (b : Bool) : oid (setSel o b) = oid o := by
  cases o <;> rfl

theorem oids_map_of_oid_eq (f : CanvasObject → CanvasObject)
    (hf : ∀ o, oid (f o) = oid o) (l : List CanvasObject) :
    oids (l.map f) = oids l := by
  induction l with
  | nil => rfl
  | cons o rest ih => simp only [oids, List.map_cons] at ih ⊢; rw [hf, ih]

theorem oids_filter_sublist (p : CanvasObject → Bool) (l : List CanvasObject) :
    (oids (l.filter p)).Sublist (oids l) :=
  (List.filter_sublist l).map oid

theorem oids_extendLast (l : List CanvasObject) (p : Point) :
    oids (extendLast l p) = oids l := by
  induction l with
  | nil => rfl
  | cons o rest ih =>
      cases rest with
      | nil => cases o <;> simp [extendLast, oids, oid]
      | cons o2 rest2 =>
          simp only [extendLast, oids, List.map_cons] at ih ⊢
          rw [ih]

theorem getD_nil_or_mem (l : List (List CanvasObject)) (n : ℕ) :
    l.getD n [] = [] ∨ l.getD n [] ∈ l := by
  induction l generalizing n with
  | nil => left; simp
  | cons a l ih =>
      cases n with
      | zero => right; simp
      | succ n =>
          rcases ih n with h | h
          · left; simpa using h
          · right; simp only [List.getD_cons_succ]; exact List.mem_cons_of_mem _ h

theorem IdInv.mono {T T' : List ℕ} {s : EditorState} (hT : ∀ i ∈ T, i ∈ T')
    (h : IdInv T s) : IdInv T' s where
  scene_sub i hi := hT _ (h.scene_sub i hi)
  scene_nodup := h.scene_nodup
  hist_sub e he i hi := hT _ (h.hist_sub e he i hi)
  hist_nodup := h.hist_nodup
  edit_mem a ha := hT _ (h.edit_mem a ha)

theorem IdInv.saveHist {T : List ℕ} {s : EditorState} (h : IdInv T s) :
    IdInv T (MagicMarkup.saveHist s) := by
  refine ⟨h.scene_sub, h.scene_nodup, ?_, ?_, h.edit_mem⟩
  · intro e he i hi
    rcases List.mem_append.mp he with he' | he'
    · refine h.hist_sub e ?_ i hi
      split at he'
      · exact (List.take_sublist _ _).subset he'
      · exact he'
    · rw [List.mem_singleton.mp he'] at hi
      exact h.scene_sub i hi
  · intro e he
    rcases List.mem_append.mp he with he' | he'
    · refine h.hist_nodup e ?_
      split at he'
      · exact (List.take_sublist _ _).subset he'
      · exact he'
    · rw [List.mem_singleton.mp he']
      exact h.scene_nodup

theorem IdInv.undo {T : List ℕ} {s : EditorState} (h : IdInv T s) :
    IdInv T (undoStep s) := by
  unfold undoStep
  split
  · rcases getD_nil_or_mem s.hist (s.ptr - 1) with hg | hg
    · exact ⟨fun i hi => (by rw [hg] at hi; cases hi), (by rw [hg]; exact List.nodup_nil),
        h.hist_sub, h.hist_nodup, h.edit_mem⟩
    · exact ⟨fun i hi => h.hist_sub _ hg i hi, h.hist_nodup _ hg,
        h.hist_sub, h.hist_nodup, h.edit_mem⟩
  · exact h

theorem IdInv.redo {T : List ℕ} {s : EditorState} (h : IdInv T s) :
    IdInv T (redoStep s) := by
  unfold redoStep
  split
  · rcases getD_nil_or_mem s.hist (s.ptr + 1) with hg | hg
    · exact ⟨fun i hi => (by rw [hg] at hi; cases hi), (by rw [hg]; exact List.nodup_nil),
        h.hist_sub, h.hist_nodup, h.edit_mem⟩
    · exact ⟨fun i hi => h.hist_sub _ hg i hi, h.hist_nodup _ hg,
        h.hist_sub, h.hist_nodup, h.edit_mem⟩
  · exact h

theorem IdInv.clear {T : List ℕ} {s : EditorState} (h : IdInv T s) :
    IdInv T (clearStep s) := by
  refine ⟨?_, ?_, ?_, ?_, h.edit_mem⟩
  · intro i hi; cases hi
  · exact List.nodup_nil
  · intro e he i hi
    rw [List.mem_singleton.mp he] at hi
    cases hi
  · intro e he
    rw [List.mem_singleton.mp he]
    exact List.nodup_nil

theorem IdInv.eraseAt {T : List ℕ} {s : EditorState} (h : IdInv T s) (x y : ℚ) :
    IdInv T (MagicMarkup.eraseAt s x y) := by
  unfold MagicMarkup.eraseAt
  split
  · exact h
  · refine ⟨?_, ?_, h.hist_sub, h.hist_nodup, h.edit_mem⟩
    · intro i hi
      exact h.scene_sub i ((oids_filter_sublist _ _).subset hi)
    · exact h.scene_nodup.sublist (oids_filter_sublist _ _)

theorem hitTest_mem {objs : List CanvasObject} {x y : ℚ} {o : CanvasObject}
    (h : hitTest objs x y = some o) : o ∈ objs := by
  rw [hitTest] at h
  obtain ⟨-, l₁, l₂, hsplit, -⟩ := hitFirst_eq_some_split x y _ o h
  have : o ∈ objs.reverse := by rw [hsplit]; simp
  exact List.mem_reverse.mp this

theorem IdInv.down {T : List ℕ} {s : EditorState} (h : IdInv T s)
    (t : ℕ) (x y : ℚ) (ht : t ∉ T) :
    IdInv (T ++ [t]) (mouseDown s t x y) := by
  have hmono : ∀ i ∈ T, i ∈ T ++ [t] := fun i hi => List.mem_append_left _ hi
  unfold mouseDown
  cases s.tool with
  | annotate =>
      refine ⟨fun i hi => hmono _ (h.scene_sub i hi), h.scene_nodup,
        fun e he i hi => hmono _ (h.hist_sub e he i hi), h.hist_nodup, ?_⟩
      intro a ha
      simp only [Option.some.injEq] at ha
      rw [← ha]
      exact List.mem_append_right _ (List.mem_singleton_self t)
  | select =>
      cases hhit : hitTest s.objects x y with
      | none =>
          simp only [hhit]
          exact ⟨fun i hi => hmono _ (h.scene_sub i
              (by rwa [oids_map_of_oid_eq _ (fun o => oid_setSel o false)] at hi)),
            (by rw [oids_map_of_oid_eq _ (fun o => oid_setSel o false)]; exact h.scene_nodup),
            fun e he i hi => hmono _ (h.hist_sub e he i hi), h.hist_nodup,
            fun a ha => hmono _ (h.edit_mem a ha)⟩
      | some o =>
          cases o with
          | stroke hl =>
              simp only [hhit]
              exact ⟨fun i hi => hmono _ (h.scene_sub i
                  (by rwa [oids_map_of_oid_eq _ (fun o => oid_setSel o _)] at hi)),
                (by rw [oids_map_of_oid_eq _ (fun o => oid_setSel o _)]; exact h.scene_nodup),
                fun e he i hi => hmono _ (h.hist_sub e he i hi), h.hist_nodup,
                fun a ha => hmono _ (h.edit_mem a ha)⟩
          | note a =>
              simp only [hhit]
              split
              · have hmem : (CanvasObject.note a) ∈ s.objects := hitTest_mem hhit
                have haid : a.id ∈ T := h.scene_sub a.id
                  (List.mem_map.mpr ⟨CanvasObject.note a, hmem, rfl⟩)
                have hpres : ∀ o, oid (if oid o = a.id then o else setSel o false) = oid o := by
                  intro o
                  split
                  · rfl
                  · exact oid_setSel o false
                exact ⟨fun i hi => hmono _ (h.scene_sub i
                    (by rwa [oids_map_of_oid_eq _ hpres] at hi)),
                  (by rw [oids_map_of_oid_eq _ hpres]; exact h.scene_nodup),
                  fun e he i hi => hmono _ (h.hist_sub e he i hi), h.hist_nodup,
                  fun a' ha' => hmono _ (by
                    simp only [Option.some.injEq] at ha'
                    rw [← ha']
                    exact haid)⟩
              · exact ⟨fun i hi => hmono _ (h.scene_sub i
                    (by rwa [oids_map_of_oid_eq _ (fun o => oid_setSel o _)] at hi)),
                  (by rw [oids_map_of_oid_eq _ (fun o => oid_setSel o _)]; exact h.scene_nodup),
                  fun e he i hi => hmono _ (h.hist_sub e he i hi), h.hist_nodup,
                  fun a' ha' => hmono _ (h.edit_mem a' ha')⟩
  | highlight =>
      have hoids : oids (s.objects ++
          [CanvasObject.stroke
            { id := t, color := s.color, points := [⟨x, y⟩],
              strokeWidth := brushVal s.brushSize * (s.canvasWidth / maxDimension),
              selected := false }]) = oids s.objects ++ [t] := by
        simp [oids, oid]
      refine ⟨?_, ?_, fun e he i hi => hmono _ (h.hist_sub e he i hi), h.hist_nodup,
        fun a ha => hmono _ (h.edit_mem a ha)⟩
      · intro i hi
        rw [hoids] at hi
        rcases List.mem_append.mp hi with hi' | hi'
        · exact hmono _ (h.scene_sub i hi')
        · exact List.mem_append_right _ hi'
      · rw [hoids, List.nodup_append]
        refine ⟨h.scene_nodup, List.nodup_singleton t, ?_⟩
        intro i hi hit'
        rw [List.mem_singleton.mp hit'] at hi
        exact ht (h.scene_sub t hi)
  | erase =>
      have hrec : IdInv T
          (⟨s.objects, Tool.erase, s.color, s.brushSize, s.canvasWidth, s.hist,
            s.ptr, true, false, none, 0, s.editing⟩ : EditorState) :=
        ⟨h.scene_sub, h.scene_nodup, h.hist_sub, h.hist_nodup, h.edit_mem⟩
      exact (hrec.eraseAt x y).mono hmono

theorem oid_dragTo (x y : ℚ) (off : Point) (o : CanvasObject) :
    oid (dragTo x y off o) = oid o := by
  cases o with
  | note a =>
      simp only [dragTo]
      split <;> rfl
  | stroke hl => rfl

theorem IdInv.mouseMove {T : List ℕ} {s : EditorState} (h : IdInv T s) (x y : ℚ) :
    IdInv T (MagicMarkup.mouseMove s x y) := by
  unfold MagicMarkup.mouseMove
  split
  · exact h
  · split
    · split
      · exact h
      · exact ⟨fun i hi => h.scene_sub i
              (by rwa [oids_map_of_oid_eq _ (oid_dragTo x y _)] at hi),
            (by rw [oids_map_of_oid_eq _ (oid_dragTo x y _)]; exact h.scene_nodup),
            h.hist_sub, h.hist_nodup, h.edit_mem⟩
    · split
      · exact ⟨fun i hi => h.scene_sub i (by rwa [oids_extendLast] at hi),
            (by rw [oids_extendLast]; exact h.scene_nodup),
            h.hist_sub, h.hist_nodup, h.edit_mem⟩
      · split
        · exact h.eraseAt x y
        · exact h

theorem IdInv.mouseUp {T : List ℕ} {s : EditorState} (h : IdInv T s) :
    IdInv T (MagicMarkup.mouseUp s) := by
  unfold MagicMarkup.mouseUp
  have h1 : IdInv T (if s.isDrawing = true ∨ s.isDragging = true then MagicMarkup.saveHist s else s) := by
    split
    · exact h.saveHist
    · exact h
  exact ⟨h1.scene_sub, h1.scene_nodup, h1.hist_sub, h1.hist_nodup, h1.edit_mem⟩

theorem oid_updNote (text : String) (id : ℕ) (pos : Point) (o : CanvasObject) :
    oid (updNote text id pos o) = oid o := by
  cases o with
  | note a =>
      simp only [updNote]
      split <;> rfl
  | stroke hl => rfl

theorem IdInv.upsert {T : List ℕ} {s : EditorState} (h : IdInv T s)
    (text : String) (id : ℕ) (pos : Point) (hid : id ∈ T) :
    IdInv T (upsertScene s text id pos) := by
  unfold upsertScene
  split
  · exact ⟨fun i hi => h.scene_sub i
        (by rwa [oids_map_of_oid_eq _ (oid_updNote text id pos)] at hi),
      (by rw [oids_map_of_oid_eq _ (oid_updNote text id pos)]; exact h.scene_nodup),
      h.hist_sub, h.hist_nodup, h.edit_mem⟩
  · rename_i hnot
    have hid_not : id ∉ oids s.objects := by
      intro hmem
      apply hnot
      rw [List.any_eq_true]
      obtain ⟨o, ho, hoid⟩ := List.mem_map.mp hmem
      exact ⟨o, ho, by simp [hoid]⟩
    have hoids : ∀ a : Annot, a.id = id →
        oids (s.objects ++ [CanvasObject.note a]) = oids s.objects ++ [id] := by
      intro a ha
      simp [oids, oid, ha]
    refine ⟨?_, ?_, h.hist_sub, h.hist_nodup, h.edit_mem⟩
    · intro i hi
      rw [hoids _ rfl] at hi
      rcases List.mem_append.mp hi with hi' | hi'
      · exact h.scene_sub i hi'
      · rwa [List.mem_singleton.mp hi']
    · rw [hoids _ rfl, List.nodup_append]
      exact ⟨h.scene_nodup, List.nodup_singleton id,
        fun i hi hi' => hid_not ((List.mem_singleton.mp hi') ▸ hi)⟩

theorem IdInv.editorSave {T : List ℕ} {s : EditorState} (h : IdInv T s)
    (text : String) (id : ℕ) (pos : Point) (hid : id ∈ T) :
    IdInv T (editorSaveAnnot s text id pos) := by
  unfold editorSaveAnnot
  have h1 : IdInv T (if text ≠ "" then MagicMarkup.saveHist (upsertScene s text id pos) else s) := by
    split
    · exact (h.upsert text id pos hid).saveHist
    · exact h
  exact ⟨h1.scene_sub, h1.scene_nodup, h1.hist_sub, h1.hist_nodup,
    fun a ha => Option.noConfusion ha⟩

theorem IdInv.annotSave {T : List ℕ} {s : EditorState} (h : IdInv T s)
    (raw : String) (pos : Point) :
    IdInv T (annotSaveStep s raw pos) := by
  unfold annotSaveStep
  split
  · exact h
  · rename_i a he
    have haid : a.id ∈ T := h.edit_mem a he
    split
    · exact h.editorSave (jsTrim raw) a.id pos haid
    · exact ⟨h.scene_sub, h.scene_nodup, h.hist_sub, h.hist_nodup,
        fun a' ha' => Option.noConfusion ha'⟩

theorem IdInv.annotCancel {T : List ℕ} {s : EditorState} (h : IdInv T s) :
    IdInv T (annotCancelStep s) :=
  ⟨h.scene_sub, h.scene_nodup, h.hist_sub, h.hist_nodup,
    fun _ ha => Option.noConfusion ha⟩

theorem IdInv.setTool {T : List ℕ} {s : EditorState} (h : IdInv T s) (t : Tool) :
    IdInv T (setToolStep s t) :=
  ⟨h.scene_sub, h.scene_nodup, h.hist_sub, h.hist_nodup, h.edit_mem⟩

theorem IdInv.keyDelete {T : List ℕ} {s : EditorState} (h : IdInv T s) :
    IdInv T (keyDeleteStep s) := by
  unfold keyDeleteStep
  split
  · exact h
  · split
    · have hrec : IdInv T ({ s with objects := s.objects.filter fun o => ¬osel o }) :=
        ⟨fun i hi => h.scene_sub i ((oids_filter_sublist _ _).subset hi),
          h.scene_nodup.sublist (oids_filter_sublist _ _),
          h.hist_sub, h.hist_nodup, h.edit_mem⟩
      exact hrec.saveHist
    · exact h

theorem stepEvent_inv (e : Event) (s : EditorState) (T : List ℕ)
    (h : IdInv T s) (hfresh : ∀ t ∈ eventTimes e, t ∉ T) :
    IdInv (T ++ eventTimes e) (stepEvent s e) := by
  cases e with
  | down t x y =>
      exact h.down t x y (hfresh t (List.mem_singleton_self t))
  | move x y => simp only [eventTimes, List.append_nil]; exact h.mouseMove x y
  | up => simp only [eventTimes, List.append_nil]; exact h.mouseUp
  | pickTool t => simp only [eventTimes, List.append_nil]; exact h.setTool t
  | undoE => simp only [eventTimes, List.append_nil]; exact h.undo
  | redoE => simp only [eventTimes, List.append_nil]; exact h.redo
  | clearE => simp only [eventTimes, List.append_nil]; exact h.clear
  | keyDelete => simp only [eventTimes, List.append_nil]; exact h.keyDelete
  | annotSave raw pos => simp only [eventTimes, List.append_nil]; exact h.annotSave raw pos
  | annotCancel => simp only [eventTimes, List.append_nil]; exact h.annotCancel

theorem run_inv : ∀ (es : List Event) (s : EditorState) (T : List ℕ),
    IdInv T s → (T ++ allTimes es).Nodup → IdInv (T ++ allTimes es) (run s es) := by
  intro es
  induction es with
  | nil =>
      intro s T h _
      rw [allTimes, List.append_nil]
      rwa [run]
  | cons e es ih =>
      intro s T h hnd
      rw [allTimes, ← List.append_assoc] at hnd ⊢
      rw [run]
      refine ih (stepEvent s e) (T ++ eventTimes e) ?_ hnd
      refine stepEvent_inv e s T h ?_
      intro t htimes hT
      have hd : T.Disjoint (eventTimes e ++ allTimes es) := by
        have := (List.nodup_append.mp (by rwa [List.append_assoc] at hnd)).2.2
        exact this
      exact hd hT (List.mem_append_left _ htimes)

/-- The ids in the scene after any mouse-move form a sublist of the ids
before it: in-gesture mutation (extending a stroke, dragging a text
object, erasing) never renames a surviving object. -/
theorem oids_mouseMove_sublist (s : EditorState) (x y : ℚ) :
    (oids (mouseMove s x y).objects).Sublist (oids s.objects) := by
  unfold mouseMove
  split
  · exact List.Sublist.refl _
  · split
    · split
      · exact List.Sublist.refl _
      · rw [oids_map_of_oid_eq _ (oid_dragTo x y _)]
    · split
      · rw [oids_extendLast]
      · split
        · unfold eraseAt
          split
          · exact List.Sublist.refl _
          · exact oids_filter_sublist _ _
        · exact List.Sublist.refl _

/-- C7 amended: object ids are the `Date.now()` pointer-down timestamps,
so they are pairwise distinct only when those timestamps are: for any
event trace whose pointer-down timestamps are pairwise distinct, every id
in the scene is one of those timestamps and the scene's ids are pairwise
distinct; and the in-gesture mutations never change a surviving object's
id.  (Two pointer-downs in one millisecond do collide —
`duplicate_ids_same_millisecond`.) -/
theorem ids_distinct_of_distinct_times (es : List Event)
    (hnd : (allTimes es).Nodup) :
    ((run initState es).objects.map oid).Nodup ∧
    (∀ i ∈ (run initState es).objects.map oid, i ∈ allTimes es) ∧
    ∀ (s : EditorState) (x y : ℚ),
      ((mouseMove s x y).objects.map oid).Sublist (s.objects.map oid) := by
  have hinit : IdInv [] initState := by
    refine ⟨?_, ?_, ?_, ?_, ?_⟩
    · intro i hi
      simp [initState, oids] at hi
    · simp [initState, oids]
    · intro e he i hi
      simp only [initState, List.mem_singleton] at he
      rw [he] at hi
      simp [oids] at hi
    · intro e he
      simp only [initState, List.mem_singleton] at he
      rw [he]
      simp [oids]
    · intro a ha
      simp [initState] at ha
  have h := run_inv es initState [] hinit (by simpa using hnd)
  rw [List.nil_append] at h
  exact ⟨h.scene_nodup, h.scene_sub, fun s x y => oids_mouseMove_sublist s x y⟩

/-- Witness for `ids_distinct_of_distinct_times`: two highlight gestures
at distinct timestamps 1 and 2. -/
theorem ids_distinct_witness :
    (allTimes [Event.down 1 0 0, Event.up, Event.down 2 5 5, Event.up]).Nodup ∧
    (((run initState [Event.down 1 0 0, Event.up, Event.down 2 5 5, Event.up]).objects.map oid).Nodup ∧
      (∀ i ∈ (run initState [Event.down 1 0 0, Event.up, Event.down 2 5 5, Event.up]).objects.map oid,
        i ∈ allTimes [Event.down 1 0 0, Event.up, Event.down 2 5 5, Event.up]) ∧
      ∀ (s : EditorState) (x y : ℚ),
        ((mouseMove s x y).objects.map oid).Sublist (s.objects.map oid)) :=
  ⟨by decide, ids_distinct_of_distinct_times
    [Event.down 1 0 0, Event.up, Event.down 2 5 5, Event.up] (by decide)⟩

end MagicMarkup
